import Mathlib

/-!
Verification of the django-schemaform repository (src/schemaform), a bridge
that builds Django form fields from a Pydantic model and reconciles the
mechanical (Django) and semantic (Pydantic) validation passes.

The development shallowly embeds the relevant Python code:
- types.py : UploadedFileWrapper
- forms.py : type introspection helpers, constraint extraction, choice
  synthesis, file-format detection, the two-phase cleaning pipeline
  and Pydantic error conversion.

Python dicts keyed by field name are modelled as ordered association
lists; exceptions are modelled with Except; the semantic validator is a
parameter of the pipeline.
-/

namespace Schemaform

/-! ## types.py : UploadedFileWrapper -/

/-- A platform (Django) upload object, as described by UploadedFileProtocol
in types.py: name, size and content_type attributes. -/
structure UploadedFile where
  name : String
  size : Nat
  content_type : String
deriving DecidableEq, Repr

/-- UploadedFileWrapper from types.py: stores the wrapped platform object
in the single slot _wrapped. -/
structure UploadedFileWrapper where
  _wrapped : UploadedFile
deriving DecidableEq, Repr

/-- Property name: returns the wrapped object name. -/
def UploadedFileWrapper.name (w : UploadedFileWrapper) : String :=
  w._wrapped.name

/-- Property size: returns the wrapped object size. -/
def UploadedFileWrapper.size (w : UploadedFileWrapper) : Nat :=
  w._wrapped.size

/-- Property content_type: returns the wrapped object MIME type. -/
def UploadedFileWrapper.content_type (w : UploadedFileWrapper) : String :=
  w._wrapped.content_type

/-- Property wrapped: returns the original platform object. -/
def UploadedFileWrapper.wrapped (w : UploadedFileWrapper) : UploadedFile :=
  w._wrapped

/-- Dunder bool of UploadedFileWrapper: unconditionally True. -/
def UploadedFileWrapper.toBool (_ : UploadedFileWrapper) : Bool :=
  true

/-! ## forms.py : type introspection (_unwrap_optional, _detect_choices) -/

/-- A value usable as a Literal arm or an Enum member value. -/
inductive LitVal where
  | lstr (s : String)
  | lint (n : Int)
  | lbool (b : Bool)
deriving DecidableEq, Repr

/-- Python str() on a literal value. -/
def LitVal.pyStr : LitVal → String
  | .lstr s => s
  | .lint n => toString n
  | .lbool true => "True"
  | .lbool false => "False"

/-- A member of a Python Enum class: its identifier name and its value. -/
structure EnumMember where
  name : String
  value : LitVal
deriving DecidableEq, Repr

/-- One metadata entry inside an Annotated type: either a pydantic
FieldInfo (carrying json_schema_extra, modelled as an association list)
or some other metadata object. -/
inductive AnnMeta where
  | fieldInfoMeta (json_schema_extra : Option (List (String × String)))
  | otherMeta
deriving DecidableEq, Repr

/-- A declared Python type annotation, restricted to the shapes the
introspector distinguishes: NoneType, a named (class) type, a Union,
an Annotated type, a Literal, or an Enum class. -/
inductive PyType where
  | noneType
  | named (n : String)
  | union (args : List PyType)
  | annotated (base : PyType) (meta : List AnnMeta)
  | literal (vals : List LitVal)
  | enum (members : List EnumMember)

/-- Whether a type is NoneType (the absence type). -/
def PyType.isNone : PyType → Bool
  | .noneType => true
  | _ => false

/-- SchemaForm._unwrap_optional: if the annotation is a Union containing
NoneType with exactly one non-None arm, return that arm, else None. -/
def unwrap_optional (t : PyType) : Option PyType :=
  match t with
  | .union args =>
    let non_none_args := args.filter (fun a => !a.isNone)
    if non_none_args.length = 1 && args.any PyType.isNone then
      non_none_args.head?
    else
      none
  | _ => none

/-- Python str.replace applied to the single characters underscore and
space, as in name.replace("_", " "). -/
def replaceUnderscores (s : String) : String :=
  ⟨s.toList.map (fun c => if c = '_' then ' ' else c)⟩

/-- One step of Python str.title over a character list: an alphabetic
character is uppercased when the previous character was not alphabetic
and lowercased otherwise; other characters pass through. -/
def titleCaseAux : Bool → List Char → List Char
  | _, [] => []
  | prevAlpha, c :: cs =>
    let c' := if c.isAlpha then (if prevAlpha then c.toLower else c.toUpper) else c
    c' :: titleCaseAux c.isAlpha cs

/-- Python str.title. -/
def pyTitle (s : String) : String :=
  ⟨titleCaseAux false s.toList⟩

/-- Humanisation of an Enum member name in _detect_choices:
member.name.replace("_", " ").title(). -/
def humanizeName (s : String) : String :=
  pyTitle (replaceUnderscores s)

/-- SchemaForm._detect_choices: Literal args become (value, str(value))
pairs in declaration order; an Enum class yields one
(member.value, humanised member.name) pair per member; anything else
yields no choices. -/
def detect_choices (t : PyType) : Option (List (LitVal × String)) :=
  match t with
  | .literal vals => some (vals.map (fun v => (v, v.pyStr)))
  | .enum members => some (members.map (fun m => (m.value, humanizeName m.name)))
  | _ => none

/-- The empty placeholder pair prepended for optional choice fields in
_build_field. -/
def emptyChoice : LitVal × String :=
  (LitVal.lstr "", "---------")

/-- The choice list assembled in _build_field for a choice field:
the empty placeholder pair is prepended exactly for optional fields. -/
def buildChoices (is_optional : Bool) (choices : List (LitVal × String)) :
    List (LitVal × String) :=
  if is_optional then emptyChoice :: choices else choices

/-- The choice-field path of SchemaForm._build_field: unwrap the optional
wrapper, detect choices on the core type, and prepend the placeholder
exactly when the annotation was optional. -/
def synthesizeChoices (annot : PyType) : Option (List (LitVal × String)) :=
  let is_optional := (unwrap_optional annot).isSome
  let core_type := (unwrap_optional annot).getD annot
  match detect_choices core_type with
  | some choices => some (buildChoices is_optional choices)
  | none => none

/-- Whether every Enum member name of an annotation is free of the dash
character, as every Python identifier is.  (Enum member names are Python
identifiers, so this always holds for real schemas; other annotations
satisfy it vacuously.) -/
def enumNamesNoDash : PyType → Bool
  | .enum members => members.all (fun m => !(m.name.toList.contains '-'))
  | _ => true

/-! ## forms.py : constraint extraction (_extract_constraints) -/

/-- One entry of FieldInfo.metadata: the annotated_types constraint
objects Ge, Gt, Le, Lt, MinLen, MaxLen, MultipleOf, the pydantic decimal
metadata object carrying max_digits and decimal_places attributes, or an
unrecognized metadata object. -/
inductive ConstraintMeta where
  | ge (n : Int)
  | gt (n : Int)
  | le (n : Int)
  | lt (n : Int)
  | minLen (n : Nat)
  | maxLen (n : Nat)
  | multipleOf (n : Int)
  | decimalMeta (max_digits : Option Nat) (decimal_places : Option Nat)
  | other
deriving DecidableEq, Repr

/-- The kwargs dict produced by _extract_constraints, one optional slot
per Django field kwarg it can set. -/
structure ConstraintKwargs where
  min_value : Option Int
  max_value : Option Int
  min_length : Option Nat
  max_length : Option Nat
  step : Option Int
  max_digits : Option Nat
  decimal_places : Option Nat
deriving DecidableEq, Repr

/-- The empty kwargs dict. -/
def emptyKwargs : ConstraintKwargs :=
  ⟨none, none, none, none, none, none, none⟩

/-- The body of the metadata loop in _extract_constraints applied to one
metadata entry: Ge and Gt set min_value, Le and Lt set max_value, MinLen
and MaxLen set the length bounds, MultipleOf sets step, and the decimal
metadata sets max_digits and decimal_places when present; any other
metadata leaves the kwargs unchanged. -/
def applyMeta (k : ConstraintKwargs) (m : ConstraintMeta) : ConstraintKwargs :=
  match m with
  | .ge n => { k with min_value := some n }
  | .gt n => { k with min_value := some n }
  | .le n => { k with max_value := some n }
  | .lt n => { k with max_value := some n }
  | .minLen n => { k with min_length := some n }
  | .maxLen n => { k with max_length := some n }
  | .multipleOf n => { k with step := some n }
  | .decimalMeta md dp =>
    let k1 := match md with
      | some d => { k with max_digits := some d }
      | none => k
    match dp with
      | some d => { k1 with decimal_places := some d }
      | none => k1
  | .other => k

/-- A pydantic FieldInfo, restricted to the attributes the form reads:
the declared annotation, json_schema_extra (a dict, modelled as an
association list, when present), and the constraint metadata list. -/
structure FieldInfo where
  annot : PyType
  json_schema_extra : Option (List (String × String))
  metadata : List ConstraintMeta

/-- SchemaForm._extract_constraints: fold the FieldInfo metadata list
over the empty kwargs dict. -/
def extract_constraints (fi : FieldInfo) : ConstraintKwargs :=
  fi.metadata.foldl applyMeta emptyKwargs

/-! ## forms.py : file format detection (_get_file_format) -/

/-- Python dict.get on a string-keyed dict modelled as an association
list. -/
def dictGet (k : String) : List (String × String) → Option String
  | [] => none
  | (k0, v) :: rest => if k0 = k then some v else dictGet k rest

/-- The direct check of _get_file_format: json_schema_extra is a dict
whose "format" entry is "binary" or "image". -/
def extraFormat (extra : Option (List (String × String))) : Option String :=
  match extra with
  | some d =>
    match dictGet "format" d with
    | some fmt => if fmt = "binary" || fmt = "image" then some fmt else none
    | none => none
  | none => none

/-- typing.get_args on an annotation, at the granularity the form uses:
the arms of a Union. (On an Annotated type Python returns the base type
followed by the metadata objects; only the base is a type.) -/
def getArgs : PyType → List PyType
  | .union args => args
  | .annotated base _ => [base]
  | _ => []

/-- The dunder metadata of an Annotated type, when the type is one. -/
def argMeta : PyType → Option (List AnnMeta)
  | .annotated _ m => some m
  | _ => none

/-- The per-metadata check in the loop of _get_file_format: a FieldInfo
metadata entry whose json_schema_extra has a "binary" or "image" format. -/
def annMetaFormat : AnnMeta → Option String
  | .fieldInfoMeta (some extra) =>
    match dictGet "format" extra with
    | some fmt => if fmt = "binary" || fmt = "image" then some fmt else none
    | none => none
  | _ => none

/-- The metadata loop of _get_file_format: first matching entry wins. -/
def findFormatInMetas : List AnnMeta → Option String
  | [] => none
  | m :: rest =>
    match annMetaFormat m with
    | some fmt => some fmt
    | none => findFormatInMetas rest

/-- SchemaForm._get_file_format: check json_schema_extra of the
FieldInfo directly; otherwise take the first element of
typing.get_args(annotation) and, when it is an Annotated type, scan its
own metadata for a FieldInfo entry carrying the format marker. -/
def get_file_format (fi : FieldInfo) : Option String :=
  match extraFormat fi.json_schema_extra with
  | some fmt => some fmt
  | none =>
    match (getArgs fi.annot).head? with
    | some first_arg =>
      match argMeta first_arg with
      | some metas => findFormatInMetas metas
      | none => none
    | none => none

/-! ## forms.py : Pydantic error translation
(PYDANTIC_ERROR_MESSAGES, _convert_pydantic_error) -/

/-- The fixed template table PYDANTIC_ERROR_MESSAGES from forms.py. -/
def PYDANTIC_ERROR_MESSAGES : List (String × String) :=
  [("missing", "This field is required."),
   ("string_type", "Enter a valid string."),
   ("string_too_short", "Ensure this value has at least {min_length} characters."),
   ("string_too_long", "Ensure this value has at most {max_length} characters."),
   ("string_pattern_mismatch", "Enter a valid value matching the required pattern."),
   ("int_type", "Enter a whole number."),
   ("int_parsing", "Enter a whole number."),
   ("float_type", "Enter a number."),
   ("float_parsing", "Enter a number."),
   ("decimal_type", "Enter a number."),
   ("decimal_parsing", "Enter a valid decimal number."),
   ("greater_than", "Ensure this value is greater than {gt}."),
   ("greater_than_equal", "Ensure this value is greater than or equal to {ge}."),
   ("less_than", "Ensure this value is less than {lt}."),
   ("less_than_equal", "Ensure this value is less than or equal to {le}."),
   ("bool_type", "Enter a valid boolean value."),
   ("bool_parsing", "Enter a valid boolean value."),
   ("date_type", "Enter a valid date."),
   ("date_parsing", "Enter a valid date."),
   ("date_from_datetime_parsing", "Enter a valid date."),
   ("datetime_type", "Enter a valid date and time."),
   ("datetime_parsing", "Enter a valid date and time."),
   ("time_type", "Enter a valid time."),
   ("time_parsing", "Enter a valid time."),
   ("timedelta_type", "Enter a valid duration."),
   ("timedelta_parsing", "Enter a valid duration."),
   ("literal_error", "Select a valid choice."),
   ("enum", "Select a valid choice."),
   ("uuid_type", "Enter a valid UUID."),
   ("uuid_parsing", "Enter a valid UUID."),
   ("value_error.email", "Enter a valid email address."),
   ("value_error.url", "Enter a valid URL.")]

/-- Python str.format with keyword arguments, on the character list of a
template with named placeholders: outside a placeholder characters pass
through; between braces the placeholder name is accumulated and then
substituted from the context, failing (KeyError) when the name is
missing from the context. -/
def pyFormatCore (ctx : List (String × String)) :
    Bool → List Char → List Char → Option (List Char)
  | false, _, [] => some []
  | false, acc, c :: cs =>
    if c = '\x7b' then pyFormatCore ctx true [] cs
    else (pyFormatCore ctx false acc cs).map (fun tail => c :: tail)
  | true, _, [] => none
  | true, acc, c :: cs =>
    if c = '\x7d' then
      match dictGet (⟨acc.reverse⟩ : String) ctx with
      | some v => (pyFormatCore ctx false [] cs).map (fun tail => v.toList ++ tail)
      | none => none
    else pyFormatCore ctx true (c :: acc) cs

/-- The guarded interpolation in _convert_pydantic_error:
message.format(**ctx) inside try, keeping the unsubstituted template on
KeyError. -/
def pyFormat (template : String) (ctx : List (String × String)) : String :=
  match pyFormatCore ctx false [] template.toList with
  | some out => ⟨out⟩
  | none => template

/-- A structured pydantic error (pydantic_core.ErrorDetails) as read by
the form: location path, error type, raw message and context, each
absent when the corresponding dict key is missing (context defaulting to
the empty dict). -/
structure ErrorDetails where
  loc : List String
  type : Option String
  msg : Option String
  ctx : List (String × String)

/-- SchemaForm._convert_pydantic_error: the field name is the first
location segment unless the path is empty or starts with the root
marker; the message is, in order, the raw validator message for the
value_error kind, the interpolated table template for a known kind, and
the raw validator message otherwise. -/
def convert_pydantic_error (error : ErrorDetails) : Option String × String :=
  let loc := error.loc
  let field_name : Option String :=
    match loc.head? with
    | some seg => if seg = "__root__" then none else some seg
    | none => none
  let error_type := error.type.getD "value_error"
  let ctx := error.ctx
  let message :=
    if error_type = "value_error" then
      error.msg.getD "Enter a valid value."
    else
      match dictGet error_type PYDANTIC_ERROR_MESSAGES with
      | some template => pyFormat template ctx
      | none => error.msg.getD "Enter a valid value."
  (field_name, message)

/-! ## forms.py : the two-phase cleaning pipeline
(_clean_fields, _clean_form) -/

/-- A value in cleaned_data or in the mapping handed to Pydantic. -/
inductive Value where
  | none
  | str (s : String)
  | upload (u : UploadedFile)
  | wrapper (w : UploadedFileWrapper)
deriving DecidableEq, Repr

/-- The mutable per-submission state: cleaned_data (a dict, modelled as
an ordered association list), the per-field errors in emission order,
and the non-field errors. -/
structure FormState where
  cleaned : List (String × Value)
  field_errors : List (String × String)
  form_errors : List String
deriving DecidableEq, Repr

/-- Dict assignment d[k] = v on an ordered association list: overwrite
in place, append when absent. -/
def setKey {α : Type} (l : List (String × α)) (k : String) (v : α) : List (String × α) :=
  match l with
  | [] => [(k, v)]
  | (k0, v0) :: rest => if k0 = k then (k, v) :: rest else (k0, v0) :: setKey rest k v

/-- Dict lookup d.get(k) on an association list. -/
def lookupKey {α : Type} (k : String) : List (String × α) → Option α
  | [] => none
  | (k0, v) :: rest => if k0 = k then some v else lookupKey k rest

/-- One bound field of a submission: the field name, whether the name is
in _file_field_names, the required flag, the raw widget data for
non-file fields, and the outcome of the mechanical Django field clean
for file fields (the cleaned platform object, None for an absent
optional file, or a raised ValidationError message). -/
structure BoundFieldM where
  name : String
  is_file : Bool
  required : Bool
  raw : Option String
  mech : Except String (Option UploadedFile)

/-- Membership of the raw value in field.empty_values: the value is
absent or the empty string. -/
def isEmptyValue : Option String → Bool
  | none => true
  | some s => s = ""

/-- The result of the mechanical clean as stored in cleaned_data. -/
def uploadValue : Option UploadedFile → Value
  | some u => Value.upload u
  | none => Value.none

/-- django.forms.BaseForm.add_error for a field known to the form:
append the message to the errors of that field and delete the field
from cleaned_data. -/
def add_field_error (st : FormState) (name msg : String) : FormState :=
  { st with
    field_errors := st.field_errors ++ [(name, msg)],
    cleaned := st.cleaned.filter (fun kv => kv.1 != name) }

/-- django.forms.BaseForm.add_error with field None: append to the
non-field errors. -/
def add_form_error (st : FormState) (msg : String) : FormState :=
  { st with form_errors := st.form_errors ++ [msg] }

/-- django.forms.BaseForm.add_error: route to the named field when the
form has it, raise ValueError otherwise, and to the non-field errors
when no field is named. -/
def add_error (fields : List String) (st : FormState) (field : Option String)
    (msg : String) : Except String FormState :=
  match field with
  | some name =>
    if fields.contains name then Except.ok (add_field_error st name msg)
    else Except.error "ValueError: the form has no such field"
  | none => Except.ok (add_form_error st msg)

/-- The loop body of SchemaForm._clean_fields for one bound field.
File fields run the mechanical Django clean, storing its result or
attaching the raised error to the field (forms without custom
clean hooks are modelled); non-file fields store the raw value, with
every empty value becoming None whether or not the field is required. -/
def clean_one (st : FormState) (bf : BoundFieldM) : FormState :=
  if bf.is_file then
    match bf.mech with
    | Except.ok v => { st with cleaned := setKey st.cleaned bf.name (uploadValue v) }
    | Except.error msg => add_field_error st bf.name msg
  else
    let value := bf.raw
    if isEmptyValue value then
      if bf.required then
        { st with cleaned := setKey st.cleaned bf.name Value.none }
      else
        { st with cleaned := setKey st.cleaned bf.name Value.none }
    else
      { st with cleaned := setKey st.cleaned bf.name (Value.str (value.getD "")) }

/-- SchemaForm._clean_fields: fold the loop body over the bound fields. -/
def clean_fields (st : FormState) (bfs : List BoundFieldM) : FormState :=
  bfs.foldl clean_one st

/-- The first loop of SchemaForm._clean_form: build the data dict handed
to Pydantic together with the dict of original platform objects.  A
cleaned file-field value is an UploadedFile or None (the type Django
FileField.clean returns), so the source guard "v is not None" selects
exactly the upload case: present uploads are wrapped and remembered,
absent ones stay None, and non-file values pass through unchanged. -/
def build_pydantic_data (file_names : List String) :
    List (String × Value) → List (String × Value) × List (String × UploadedFile)
  | [] => ([], [])
  | (k, v) :: rest =>
    let pd_of := build_pydantic_data file_names rest
    if file_names.contains k then
      match v with
      | Value.upload u => ((k, Value.wrapper ⟨u⟩) :: pd_of.1, (k, u) :: pd_of.2)
      | _ => ((k, Value.none) :: pd_of.1, pd_of.2)
    else
      ((k, v) :: pd_of.1, pd_of.2)

/-- The restore loop of SchemaForm._clean_form: write each remembered
original platform object back over the validator output. -/
def restoreFiles (ofs : List (String × UploadedFile)) (c : List (String × Value)) :
    List (String × Value) :=
  ofs.foldl (fun acc ku => setKey acc ku.1 (Value.upload ku.2)) c

/-- The except branch of SchemaForm._clean_form: convert each pydantic
error in emission order and hand it to add_error. -/
def applyPydanticErrors (fields : List String) (st : FormState) :
    List ErrorDetails → Except String FormState
  | [] => Except.ok st
  | e :: rest =>
    let conv := convert_pydantic_error e
    match add_error fields st conv.1 conv.2 with
    | Except.ok st2 => applyPydanticErrors fields st2 rest
    | Except.error s => Except.error s

/-- SchemaForm._clean_form, with the single whole-model Pydantic call
(schema construction followed by model_dump on success and errors() on
failure) abstracted as a validator function.  On success cleaned_data
becomes the validator output with the original platform objects restored
over the file fields; on failure every structured error is routed
through add_error. -/
def clean_form
    (validator : List (String × Value) → Except (List ErrorDetails) (List (String × Value)))
    (file_names fields : List String) (st : FormState) : Except String FormState :=
  let pd_of := build_pydantic_data file_names st.cleaned
  match validator pd_of.1 with
  | Except.ok validated =>
    Except.ok { st with cleaned := restoreFiles pd_of.2 validated }
  | Except.error errs => applyPydanticErrors fields st errs

/-! ## Helper lemmas on association lists -/

theorem lookupKey_setKey_self {α : Type} (l : List (String × α)) (k : String) (v : α) :
    lookupKey k (setKey l k v) = some v := by
  induction l with
  | nil => simp [setKey, lookupKey]
  | cons kv rest ih =>
    obtain ⟨k0, v0⟩ := kv
    by_cases h : k0 = k
    · simp [setKey, h, lookupKey]
    · simp [setKey, h, lookupKey, ih]

theorem lookupKey_setKey_ne {α : Type} (l : List (String × α)) (k k' : String) (v : α)
    (h : k' ≠ k) : lookupKey k' (setKey l k v) = lookupKey k' l := by
  have hsymm : k ≠ k' := fun hh => h hh.symm
  induction l with
  | nil => simp [setKey, lookupKey, hsymm]
  | cons kv rest ih =>
    obtain ⟨k0, v0⟩ := kv
    by_cases h0 : k0 = k
    · subst h0
      simp [setKey, lookupKey, hsymm]
    · simp [setKey, h0, lookupKey, ih]

theorem lookupKey_filter_ne {α : Type} (l : List (String × α)) (k : String) :
    lookupKey k (l.filter (fun kv => kv.1 != k)) = none := by
  induction l with
  | nil => rfl
  | cons kv rest ih =>
    obtain ⟨k0, v0⟩ := kv
    by_cases h : k0 = k
    · subst h
      simp [List.filter_cons, ih]
    · simp [List.filter_cons, bne_iff_ne, h, lookupKey, ih]

/-! ## Claim theorems -/

/-- Claim C10: for every platform upload object u, the wrapper around u
is unconditionally truthy (even when u has size zero), its name, size
and content_type properties return exactly the attributes of u, and its
wrapped property returns u itself. -/
theorem c10_wrapper_is_transparent_and_truthy (u : UploadedFile) :
    (UploadedFileWrapper.mk u).toBool = true ∧
    (UploadedFileWrapper.mk u).name = u.name ∧
    (UploadedFileWrapper.mk u).size = u.size ∧
    (UploadedFileWrapper.mk u).content_type = u.content_type ∧
    (UploadedFileWrapper.mk u).wrapped = u :=
  ⟨rfl, rfl, rfl, rfl, rfl⟩

theorem PyType.isNone_iff (t : PyType) : t.isNone = true ↔ t = PyType.noneType := by
  cases t <;> simp [PyType.isNone]

/-- Claim C3: unwrap_optional returns an inner type exactly when the
annotation is a union whose arms include the absence type and exactly
one non-absence arm, and the returned type is that arm; any annotation
with two or more non-absence arms, no absence arm, or no union at all
signals not optional. -/
theorem c3_unwrap_optional_exactly_two_armed (t inner : PyType) :
    unwrap_optional t = some inner ↔
      ∃ args, t = PyType.union args ∧ PyType.noneType ∈ args ∧
        args.filter (fun a => !a.isNone) = [inner] := by
  cases t with
  | union args =>
    constructor
    · intro h
      simp only [unwrap_optional] at h
      split at h
      · next hcond =>
        rw [Bool.and_eq_true, decide_eq_true_eq] at hcond
        obtain ⟨hlen, hany⟩ := hcond
        obtain ⟨x, hx⟩ := List.length_eq_one.mp hlen
        rw [hx] at h
        simp only [List.head?] at h
        obtain rfl := Option.some.inj h
        refine ⟨args, rfl, ?_, hx⟩
        obtain ⟨a, hmem, ha⟩ := List.any_eq_true.mp hany
        exact (PyType.isNone_iff a).mp ha ▸ hmem
      · exact absurd h (by simp)
    · rintro ⟨args2, heq, hmem, hfilter⟩
      obtain rfl : args = args2 := by injection heq
      simp only [unwrap_optional]
      have hany : args.any PyType.isNone = true :=
        List.any_eq_true.mpr ⟨PyType.noneType, hmem, rfl⟩
      rw [hfilter]
      simp [hany]
  | noneType => simp [unwrap_optional]
  | named n => simp [unwrap_optional]
  | annotated base meta => simp [unwrap_optional]
  | literal vals => simp [unwrap_optional]
  | enum members => simp [unwrap_optional]

/-- Claim C6: constraint extraction folds each recognized constraint
kind into exactly one output key (strict bounds approximated as the
inclusive key with the same value), and an unrecognized metadata entry
anywhere in the list is ignored without effect. -/
theorem c6_extract_constraints_folding (n : Int) (m : Nat) (t : PyType)
    (ex : Option (List (String × String))) (l1 l2 : List ConstraintMeta) :
    extract_constraints ⟨t, ex, [ConstraintMeta.ge n]⟩ =
      { emptyKwargs with min_value := some n } ∧
    extract_constraints ⟨t, ex, [ConstraintMeta.gt n]⟩ =
      { emptyKwargs with min_value := some n } ∧
    extract_constraints ⟨t, ex, [ConstraintMeta.le n]⟩ =
      { emptyKwargs with max_value := some n } ∧
    extract_constraints ⟨t, ex, [ConstraintMeta.lt n]⟩ =
      { emptyKwargs with max_value := some n } ∧
    extract_constraints ⟨t, ex, [ConstraintMeta.minLen m]⟩ =
      { emptyKwargs with min_length := some m } ∧
    extract_constraints ⟨t, ex, [ConstraintMeta.maxLen m]⟩ =
      { emptyKwargs with max_length := some m } ∧
    extract_constraints ⟨t, ex, [ConstraintMeta.multipleOf n]⟩ =
      { emptyKwargs with step := some n } ∧
    extract_constraints ⟨t, ex, [ConstraintMeta.decimalMeta (some m) none]⟩ =
      { emptyKwargs with max_digits := some m } ∧
    extract_constraints ⟨t, ex, [ConstraintMeta.decimalMeta none (some m)]⟩ =
      { emptyKwargs with decimal_places := some m } ∧
    extract_constraints ⟨t, ex, l1 ++ ConstraintMeta.other :: l2⟩ =
      extract_constraints ⟨t, ex, l1 ++ l2⟩ := by
  refine ⟨rfl, rfl, rfl, rfl, rfl, rfl, rfl, rfl, rfl, ?_⟩
  simp [extract_constraints, List.foldl_append, applyMeta]

/-- Claim C9: a non-upload field whose raw input is empty (absent or the
empty string) is cleaned to the absence marker None whether the field is
required or optional, and the raw-extraction phase attaches no error for
it, leaving the missing-required judgment to the semantic pass. -/
theorem c9_empty_raw_becomes_none (st : FormState) (bf : BoundFieldM)
    (hnf : bf.is_file = false) (hempty : isEmptyValue bf.raw = true) :
    lookupKey bf.name (clean_one st bf).cleaned = some Value.none ∧
    (clean_one st bf).field_errors = st.field_errors ∧
    (clean_one st bf).form_errors = st.form_errors := by
  refine ⟨?_, ?_, ?_⟩ <;> simp [clean_one, hnf, hempty, lookupKey_setKey_self]

/-- Witness for C9: a required text field submitted as the empty string
is cleaned to None with no error attached. -/
theorem c9_witness :
    lookupKey "age"
      (clean_one ⟨[], [], []⟩ ⟨"age", false, true, some "", Except.ok none⟩).cleaned =
        some Value.none ∧
    (clean_one ⟨[], [], []⟩ ⟨"age", false, true, some "", Except.ok none⟩).field_errors = [] ∧
    (clean_one ⟨[], [], []⟩ ⟨"age", false, true, some "", Except.ok none⟩).form_errors = [] :=
  c9_empty_raw_becomes_none ⟨[], [], []⟩ ⟨"age", false, true, some "", Except.ok none⟩ rfl rfl

/-! ## C7 : the empty placeholder in synthesized choice lists -/

theorem toLower_ne_dash (c : Char) (hc : c ≠ '-') : c.toLower ≠ '-' := by
  show (if c.toNat ≥ 65 ∧ c.toNat ≤ 90 then Char.ofNat (c.toNat + 32) else c) ≠ '-'
  split
  · next h =>
    intro heq
    obtain ⟨h1, h2⟩ := h
    generalize hn : c.toNat = n at h1 h2 heq
    interval_cases n <;> exact absurd heq (by decide)
  · exact hc

theorem toUpper_ne_dash (c : Char) (hc : c ≠ '-') : c.toUpper ≠ '-' := by
  show (if c.toNat ≥ 97 ∧ c.toNat ≤ 122 then Char.ofNat (c.toNat - 32) else c) ≠ '-'
  split
  · next h =>
    intro heq
    obtain ⟨h1, h2⟩ := h
    generalize hn : c.toNat = n at h1 h2 heq
    interval_cases n <;> exact absurd heq (by decide)
  · exact hc

theorem titleCaseAux_no_dash (l : List Char) (b : Bool) (h : '-' ∉ l) :
    '-' ∉ titleCaseAux b l := by
  induction l generalizing b with
  | nil => simp [titleCaseAux]
  | cons c cs ih =>
    rw [List.mem_cons] at h
    push_neg at h
    obtain ⟨hc, hcs⟩ := h
    have hc' : c ≠ '-' := fun hh => hc hh.symm
    simp only [titleCaseAux, List.mem_cons]
    push_neg
    refine ⟨?_, ih _ hcs⟩
    intro hcontra
    have hmain : (if c.isAlpha then (if b then c.toLower else c.toUpper) else c) ≠ '-' := by
      split
      · split
        · exact toLower_ne_dash c hc'
        · exact toUpper_ne_dash c hc'
      · exact hc'
    exact hmain hcontra.symm

theorem replaceUnderscores_no_dash (s : String) (h : '-' ∉ s.toList) :
    '-' ∉ (replaceUnderscores s).toList := by
  intro hmem
  have hmap : '-' ∈ s.toList.map (fun c => if c = '_' then ' ' else c) := hmem
  obtain ⟨c, hcmem, hfc⟩ := List.mem_map.mp hmap
  by_cases h_ : c = '_'
  · rw [if_pos h_] at hfc
    exact absurd hfc (by decide)
  · rw [if_neg h_] at hfc
    exact h (hfc ▸ hcmem)

theorem humanizeName_ne_placeholder (s : String) (h : '-' ∉ s.toList) :
    humanizeName s ≠ "---------" := by
  intro heq
  have h1 := replaceUnderscores_no_dash s h
  have h2 := titleCaseAux_no_dash (replaceUnderscores s).toList false h1
  have hin : '-' ∈ (humanizeName s).toList := by
    rw [heq]
    decide
  exact h2 hin

theorem detect_choices_no_placeholder (t : PyType) (cs : List (LitVal × String))
    (hnd : enumNamesNoDash t = true) (hdet : detect_choices t = some cs) :
    emptyChoice ∉ cs := by
  cases t with
  | literal vals =>
    obtain rfl : cs = vals.map (fun v => (v, v.pyStr)) := by
      simpa [detect_choices] using hdet.symm
    intro hmem
    obtain ⟨v, hv, hpair⟩ := List.mem_map.mp hmem
    have h1 : v = LitVal.lstr "" := congrArg Prod.fst hpair
    have h2 : v.pyStr = "---------" := congrArg Prod.snd hpair
    rw [h1] at h2
    exact absurd h2 (by decide)
  | enum members =>
    obtain rfl : cs = members.map (fun m => (m.value, humanizeName m.name)) := by
      simpa [detect_choices] using hdet.symm
    intro hmem
    obtain ⟨m, hm, hpair⟩ := List.mem_map.mp hmem
    have h2 : humanizeName m.name = "---------" := congrArg Prod.snd hpair
    have hall : ∀ x ∈ members, ('-') ∉ x.name.data := by
      simpa [enumNamesNoDash, List.all_eq_true] using hnd
    have hnodash : '-' ∉ m.name.toList := hall m hm
    exact humanizeName_ne_placeholder m.name hnodash h2
  | noneType => exact absurd hdet (by simp [detect_choices])
  | named n => exact absurd hdet (by simp [detect_choices])
  | union args => exact absurd hdet (by simp [detect_choices])
  | annotated base meta => exact absurd hdet (by simp [detect_choices])

/-- Claim C7: for a synthesized choice field, the resulting choice list
has the empty placeholder pair as its first entry exactly when the field
is optional, followed by the detected (value, label) pairs in
declaration order; for a required choice field no empty placeholder
occurs anywhere in the list. -/
theorem c7_placeholder_exactly_when_optional (annot : PyType)
    (cs out : List (LitVal × String))
    (hnd : enumNamesNoDash ((unwrap_optional annot).getD annot) = true)
    (hdet : detect_choices ((unwrap_optional annot).getD annot) = some cs)
    (hsyn : synthesizeChoices annot = some out) :
    out = (if (unwrap_optional annot).isSome then emptyChoice :: cs else cs) ∧
    emptyChoice ∉ cs := by
  have hout : out = buildChoices (unwrap_optional annot).isSome cs := by
    simp only [synthesizeChoices, hdet] at hsyn
    exact (Option.some.inj hsyn).symm
  refine ⟨?_, detect_choices_no_placeholder _ _ hnd hdet⟩
  rw [hout, buildChoices]

/-- Witness for C7: an optional Literal of "a" and "b" synthesizes the
placeholder followed by the two pairs, and the detected pairs contain no
placeholder. -/
theorem c7_witness :
    ([(LitVal.lstr "", "---------"), (LitVal.lstr "a", "a"), (LitVal.lstr "b", "b")] :
        List (LitVal × String)) =
      (if (unwrap_optional (PyType.union [PyType.literal [LitVal.lstr "a", LitVal.lstr "b"],
            PyType.noneType])).isSome
       then emptyChoice :: [(LitVal.lstr "a", "a"), (LitVal.lstr "b", "b")]
       else [(LitVal.lstr "a", "a"), (LitVal.lstr "b", "b")]) ∧
    emptyChoice ∉ ([(LitVal.lstr "a", "a"), (LitVal.lstr "b", "b")] : List (LitVal × String)) :=
  c7_placeholder_exactly_when_optional
    (PyType.union [PyType.literal [LitVal.lstr "a", LitVal.lstr "b"], PyType.noneType])
    [(LitVal.lstr "a", "a"), (LitVal.lstr "b", "b")]
    [(LitVal.lstr "", "---------"), (LitVal.lstr "a", "a"), (LitVal.lstr "b", "b")]
    rfl rfl rfl

/-! ## C8 : upload format marker detection -/

/-- Concrete input refuting claim C8: an optional upload whose union is
written with the absence arm first, None | FileUpload; the binary format
marker sits in the metadata of the only (hence first) non-absence arm,
and the FieldInfo carries no direct marker. -/
def cfi8 : FieldInfo :=
  ⟨PyType.union [PyType.noneType,
      PyType.annotated (PyType.named "Any")
        [AnnMeta.fieldInfoMeta (some [("format", "binary")])]],
   none, []⟩

/-- Counterexample to claim C8: the first non-absence union arm of cfi8
carries the binary marker in its own metadata, so the claim demands the
classification binary, yet detection returns none because the code
inspects the first union arm, which here is the absence type. -/
theorem c8_counterexample :
    (((getArgs cfi8.annot).filter (fun a => !a.isNone)).head?.bind argMeta).map
        findFormatInMetas = some (some "binary") ∧
    get_file_format cfi8 = none := by
  decide

/-- Claim C8 (amended): the format marker is found when it sits directly
in the json_schema_extra of the field, or else when the first argument
of the declared union (for an upload declared X | None that is the first
non-absence arm, but an absence arm written first hides the marker) is
an Annotated type whose own metadata carry it; a declaration offering no
marker in either inspected place yields none. -/
theorem c8_marker_detection_first_arm (fi : FieldInfo) :
    (∀ fmt, extraFormat fi.json_schema_extra = some fmt →
      get_file_format fi = some fmt) ∧
    (∀ base metas rest fmt, extraFormat fi.json_schema_extra = none →
      fi.annot = PyType.union (PyType.annotated base metas :: rest) →
      findFormatInMetas metas = some fmt →
      get_file_format fi = some fmt) ∧
    (extraFormat fi.json_schema_extra = none →
      (∀ base metas, (getArgs fi.annot).head? = some (PyType.annotated base metas) →
        findFormatInMetas metas = none) →
      get_file_format fi = none) := by
  refine ⟨?_, ?_, ?_⟩
  · intro fmt h
    simp [get_file_format, h]
  · intro base metas rest fmt hdir heq hfind
    simp [get_file_format, hdir, heq, getArgs, argMeta, hfind]
  · intro hdir hnone
    simp only [get_file_format, hdir]
    cases harg : (getArgs fi.annot).head? with
    | none => rfl
    | some first_arg =>
      cases first_arg with
      | annotated base metas => simp [argMeta, hnone base metas harg]
      | noneType => rfl
      | named n => rfl
      | union args => rfl
      | literal vals => rfl
      | enum members => rfl

/-- Witness for C8 (amended): an optional upload written in the
conventional order Annotated-arm first is classified from the marker in
that arm. -/
theorem c8_witness :
    get_file_format ⟨PyType.union [PyType.annotated (PyType.named "Any")
        [AnnMeta.fieldInfoMeta (some [("format", "image")])], PyType.noneType],
      none, []⟩ = some "image" :=
  (c8_marker_detection_first_arm _).2.1 (PyType.named "Any")
    [AnnMeta.fieldInfoMeta (some [("format", "image")])] [PyType.noneType] "image"
    rfl rfl rfl

/-! ## C5 : three-tier message translation -/

/-- Claim C5: translation of an error kind and context is total and
returns a message in every case: the value_error kind (a custom rule
failure) yields the validator-supplied message verbatim; a kind in the
fixed template table yields the template with named placeholders
substituted from the context, the unsubstituted template being kept when
a placeholder is missing; any other kind yields the raw validator
message.  The final conjunct checks a concrete substitution. -/
theorem c5_translation_three_tiers (e : ErrorDetails) :
    (e.type.getD "value_error" = "value_error" →
      (convert_pydantic_error e).2 = e.msg.getD "Enter a valid value.") ∧
    (∀ template, e.type.getD "value_error" ≠ "value_error" →
      dictGet (e.type.getD "value_error") PYDANTIC_ERROR_MESSAGES = some template →
      (convert_pydantic_error e).2 = pyFormat template e.ctx) ∧
    (e.type.getD "value_error" ≠ "value_error" →
      dictGet (e.type.getD "value_error") PYDANTIC_ERROR_MESSAGES = none →
      (convert_pydantic_error e).2 = e.msg.getD "Enter a valid value.") ∧
    (∀ template ctx, pyFormatCore ctx false [] template.toList = none →
      pyFormat template ctx = template) ∧
    pyFormat "Ensure this value has at least {min_length} characters."
        [("min_length", "2")] = "Ensure this value has at least 2 characters." := by
  refine ⟨?_, ?_, ?_, ?_, by decide⟩
  · intro h
    simp [convert_pydantic_error, h]
  · intro template hne htab
    simp [convert_pydantic_error, hne, htab]
  · intro hne htab
    simp [convert_pydantic_error, hne, htab]
  · intro template ctx h
    have h' : pyFormatCore ctx false [] template.data = none := h
    simp [pyFormat, h']

/-- Witness for C5: a string_too_short error is translated through the
table template interpolated with its context. -/
theorem c5_witness :
    (convert_pydantic_error ⟨["name"], some "string_too_short", some "raw msg",
        [("min_length", "2")]⟩).2 =
      pyFormat "Ensure this value has at least {min_length} characters."
        [("min_length", "2")] :=
  (c5_translation_three_tiers
      ⟨["name"], some "string_too_short", some "raw msg", [("min_length", "2")]⟩).2.1
    "Ensure this value has at least {min_length} characters." (by decide) (by decide)

/-! ## C4 : routing of semantic errors to fields or the form -/

/-- The field errors that a list of pydantic errors contributes, in
emission order: one entry per error whose converted location names a
field. -/
def routedFieldErrors (errs : List ErrorDetails) : List (String × String) :=
  errs.filterMap (fun e =>
    match convert_pydantic_error e with
    | (some f, msg) => some (f, msg)
    | (none, _) => none)

/-- The non-field errors that a list of pydantic errors contributes, in
emission order: one entry per error whose converted location names no
field. -/
def routedFormErrors (errs : List ErrorDetails) : List String :=
  errs.filterMap (fun e =>
    match convert_pydantic_error e with
    | (some _, _) => none
    | (none, msg) => some msg)

theorem applyPydanticErrors_routes (fields : List String) (errs : List ErrorDetails) :
    ∀ st : FormState,
      (∀ e ∈ errs, ∀ f, e.loc.head? = some f → f ≠ "__root__" →
        fields.contains f = true) →
      ∃ st2, applyPydanticErrors fields st errs = Except.ok st2 ∧
        st2.field_errors = st.field_errors ++ routedFieldErrors errs ∧
        st2.form_errors = st.form_errors ++ routedFormErrors errs := by
  induction errs with
  | nil =>
    intro st h
    exact ⟨st, rfl, by simp [routedFieldErrors], by simp [routedFormErrors]⟩
  | cons e rest ih =>
    intro st h
    have hrest : ∀ e2 ∈ rest, ∀ f, e2.loc.head? = some f → f ≠ "__root__" →
        fields.contains f = true :=
      fun e2 hm => h e2 (List.mem_cons_of_mem _ hm)
    rcases hconv : convert_pydantic_error e with ⟨fopt, msg⟩
    cases fopt with
    | none =>
      obtain ⟨st2, h2, hfield, hform⟩ := ih (add_form_error st msg) hrest
      refine ⟨st2, ?_, ?_, ?_⟩
      · simp [applyPydanticErrors, hconv, add_error, h2]
      · simp [hfield, add_form_error, routedFieldErrors, hconv,
          routedFieldErrors]
      · simp [hform, add_form_error, routedFormErrors, hconv]
    | some f =>
      have hf : fields.contains f = true := by
        have hhead : e.loc.head? = some f ∧ f ≠ "__root__" := by
          have hfst : (match e.loc.head? with
              | some seg => if seg = "__root__" then none else some seg
              | none => none) = some f := congrArg Prod.fst hconv
          rcases hl : e.loc.head? with _ | seg
          · rw [hl] at hfst
            exact absurd hfst (by simp)
          · rw [hl] at hfst
            by_cases hr : seg = "__root__"
            · simp [hr] at hfst
            · simp only [if_neg hr] at hfst
              obtain rfl : seg = f := Option.some.inj hfst
              exact ⟨rfl, hr⟩
        exact h e (List.mem_cons_self e rest) f hhead.1 hhead.2
      have hfmem : f ∈ fields := by simpa using hf
      obtain ⟨st2, h2, hfield, hform⟩ := ih (add_field_error st f msg) hrest
      refine ⟨st2, ?_, ?_, ?_⟩
      · simp [applyPydanticErrors, hconv, add_error, hfmem, h2]
      · simp [hfield, add_field_error, routedFieldErrors, hconv]
      · simp [hform, add_field_error, routedFormErrors, hconv]

/-- Claim C4: a structured semantic error whose location path is
non-empty and starts with a known field name is attached to the errors
of that field; an error with an empty path or the root marker first is
attached to the form errors; and over a whole error list in which every
field-addressed error names a known field, every error is routed to
exactly one of the two, in emission order, none dropped. -/
theorem c4_error_routing (fields : List String) (st : FormState) (e : ErrorDetails) :
    (∀ f, e.loc.head? = some f → f ≠ "__root__" → fields.contains f = true →
      applyPydanticErrors fields st [e] = Except.ok
        { st with
          cleaned := st.cleaned.filter (fun kv => kv.1 != f),
          field_errors := st.field_errors ++ [(f, (convert_pydantic_error e).2)] }) ∧
    ((e.loc.head? = none ∨ e.loc.head? = some "__root__") →
      applyPydanticErrors fields st [e] = Except.ok
        { st with form_errors := st.form_errors ++ [(convert_pydantic_error e).2] }) ∧
    (∀ errs : List ErrorDetails,
      (∀ e2 ∈ errs, ∀ f, e2.loc.head? = some f → f ≠ "__root__" →
        fields.contains f = true) →
      ∃ st2, applyPydanticErrors fields st errs = Except.ok st2 ∧
        st2.field_errors = st.field_errors ++ routedFieldErrors errs ∧
        st2.form_errors = st.form_errors ++ routedFormErrors errs) := by
  refine ⟨?_, ?_, fun errs => applyPydanticErrors_routes fields errs st⟩
  · intro f hhead hroot hcont
    have hconv : (convert_pydantic_error e).1 = some f := by
      simp [convert_pydantic_error, hhead, hroot]
    have hmem : f ∈ fields := by simpa using hcont
    simp [applyPydanticErrors, add_error, hconv, hmem, add_field_error]
  · intro hor
    have hconv : (convert_pydantic_error e).1 = none := by
      rcases hor with hnone | hroot
      · simp [convert_pydantic_error, hnone]
      · simp [convert_pydantic_error, hroot]
    simp [applyPydanticErrors, add_error, hconv, add_form_error]

/-- Witness for C4: a missing-field error located at a known field is
attached to that field with the translated message. -/
theorem c4_witness :
    applyPydanticErrors ["password"] ⟨[], [], []⟩
        [⟨["password"], some "missing", none, []⟩] =
      Except.ok ⟨[], [("password", "This field is required.")], []⟩ := by
  have h := (c4_error_routing ["password"] ⟨[], [], []⟩
      ⟨["password"], some "missing", none, []⟩).1 "password" rfl (by decide) (by decide)
  simpa using h

/-! ## C1 : mechanical upload failure and the mapping handed to Pydantic -/

theorem build_pydantic_data_lookup_none (fns : List String) (c : List (String × Value))
    (k : String) (h : lookupKey k c = none) :
    lookupKey k (build_pydantic_data fns c).1 = none := by
  induction c with
  | nil => rfl
  | cons kv rest ih =>
    obtain ⟨k0, v0⟩ := kv
    have hne : k0 ≠ k := by
      intro hh
      rw [lookupKey, if_pos hh] at h
      cases h
    have hrest : lookupKey k rest = none := by rwa [lookupKey, if_neg hne] at h
    simp only [build_pydantic_data]
    by_cases hck : fns.contains k0
    · have hcm : k0 ∈ fns := by simpa using hck
      cases v0 <;> simp [hcm, lookupKey, hne, ih hrest]
    · have hcm : k0 ∉ fns := by simpa using hck
      simp [hcm, lookupKey, hne, ih hrest]

/-- Counterexample to claim C1: a single upload field whose mechanical
clean raises.  The failure is attached as a field error, but the field
is NOT present bound to None in the mapping handed to the semantic pass:
its key is absent from that mapping altogether, refuting the claim that
it is still included as None. -/
theorem c1_counterexample :
    (clean_fields ⟨[], [], []⟩
        [⟨"doc", true, true, none, Except.error "Invalid upload."⟩]).field_errors =
      [("doc", "Invalid upload.")] ∧
    lookupKey "doc" (build_pydantic_data ["doc"]
        (clean_fields ⟨[], [], []⟩
          [⟨"doc", true, true, none, Except.error "Invalid upload."⟩]).cleaned).1 =
      none ∧
    lookupKey "doc" (build_pydantic_data ["doc"]
        (clean_fields ⟨[], [], []⟩
          [⟨"doc", true, true, none, Except.error "Invalid upload."⟩]).cleaned).1 ≠
      some Value.none := by
  decide

/-- Claim C1 (amended): when the mechanical Django clean of an upload
field raises, the failure is attached as a field error on that field and
the field is omitted from the name-to-value mapping handed to the single
semantic validation call: its key is absent from that mapping (rather
than present and bound to None), so the semantic validator sees the key
as missing. -/
theorem c1_mech_failure_field_error_and_omission (st : FormState) (bf : BoundFieldM)
    (fns : List String) (msg : String)
    (hf : bf.is_file = true) (hm : bf.mech = Except.error msg) :
    (clean_one st bf).field_errors = st.field_errors ++ [(bf.name, msg)] ∧
    (clean_one st bf).form_errors = st.form_errors ∧
    lookupKey bf.name (clean_one st bf).cleaned = none ∧
    lookupKey bf.name (build_pydantic_data fns (clean_one st bf).cleaned).1 = none := by
  have hclean : clean_one st bf = add_field_error st bf.name msg := by
    simp [clean_one, hf, hm]
  rw [hclean]
  exact ⟨rfl, rfl, lookupKey_filter_ne _ _,
    build_pydantic_data_lookup_none _ _ _ (lookupKey_filter_ne _ _)⟩

/-- Witness for C1 (amended): the concrete failing upload field of the
counterexample, handled by the amended description. -/
theorem c1_witness :
    (clean_one ⟨[], [], []⟩
        ⟨"doc", true, true, none, Except.error "Invalid upload."⟩).field_errors =
      [] ++ [("doc", "Invalid upload.")] ∧
    (clean_one ⟨[], [], []⟩
        ⟨"doc", true, true, none, Except.error "Invalid upload."⟩).form_errors = [] ∧
    lookupKey "doc" (clean_one ⟨[], [], []⟩
        ⟨"doc", true, true, none, Except.error "Invalid upload."⟩).cleaned = none ∧
    lookupKey "doc" (build_pydantic_data ["doc"]
        (clean_one ⟨[], [], []⟩
          ⟨"doc", true, true, none, Except.error "Invalid upload."⟩).cleaned).1 = none :=
  c1_mech_failure_field_error_and_omission ⟨[], [], []⟩
    ⟨"doc", true, true, none, Except.error "Invalid upload."⟩ ["doc"] "Invalid upload."
    rfl rfl

/-! ## C2 : originals restored after semantic success -/

theorem lookupKey_eq_none_of_not_mem {α : Type} (l : List (String × α)) (k : String)
    (h : k ∉ l.map Prod.fst) : lookupKey k l = none := by
  induction l with
  | nil => rfl
  | cons kv rest ih =>
    obtain ⟨k0, v0⟩ := kv
    rw [List.map_cons, List.mem_cons] at h
    push_neg at h
    rw [lookupKey, if_neg (fun hh => h.1 hh.symm)]
    exact ih h.2

theorem build_pd_originals_lookup (fns : List String) (c : List (String × Value))
    (k : String) (u : UploadedFile)
    (hc : fns.contains k = true) (h : lookupKey k c = some (Value.upload u)) :
    lookupKey k (build_pydantic_data fns c).2 = some u := by
  induction c with
  | nil => cases h
  | cons kv rest ih =>
    obtain ⟨k0, v0⟩ := kv
    by_cases hk : k0 = k
    · subst hk
      rw [lookupKey, if_pos rfl] at h
      obtain rfl : v0 = Value.upload u := Option.some.inj h
      have hcm : k0 ∈ fns := by simpa using hc
      simp [build_pydantic_data, hcm, lookupKey]
    · rw [lookupKey, if_neg hk] at h
      simp only [build_pydantic_data]
      by_cases hck : fns.contains k0
      · have hcm : k0 ∈ fns := by simpa using hck
        cases v0 <;> simp [hcm, lookupKey, hk, ih h]
      · have hcm : k0 ∉ fns := by simpa using hck
        simp [hcm, ih h]

theorem build_pd_originals_lookup_none (fns : List String) (c : List (String × Value))
    (k : String) (hc : fns.contains k = false) :
    lookupKey k (build_pydantic_data fns c).2 = none := by
  induction c with
  | nil => rfl
  | cons kv rest ih =>
    obtain ⟨k0, v0⟩ := kv
    simp only [build_pydantic_data]
    by_cases hck : fns.contains k0
    · have hk : k0 ≠ k := by
        intro hh
        rw [hh, hc] at hck
        cases hck
      have hcm : k0 ∈ fns := by simpa using hck
      cases v0 <;> simp [hcm, lookupKey, hk, ih]
    · have hcm : k0 ∉ fns := by simpa using hck
      simp [hcm, ih]

theorem restoreFiles_lookup_not_mem (ofs : List (String × UploadedFile))
    (c : List (String × Value)) (k : String) (h : lookupKey k ofs = none) :
    lookupKey k (restoreFiles ofs c) = lookupKey k c := by
  induction ofs generalizing c with
  | nil => rfl
  | cons ku rest ih =>
    obtain ⟨k0, u0⟩ := ku
    have hk : k0 ≠ k := by
      intro hh
      rw [lookupKey, if_pos hh] at h
      cases h
    have hrest : lookupKey k rest = none := by rwa [lookupKey, if_neg hk] at h
    show lookupKey k (restoreFiles rest (setKey c k0 (Value.upload u0))) = lookupKey k c
    rw [ih _ hrest, lookupKey_setKey_ne _ _ _ _ (fun hh => hk hh.symm)]

theorem restoreFiles_lookup_mem (ofs : List (String × UploadedFile))
    (c : List (String × Value)) (k : String) (u : UploadedFile)
    (hnd : (ofs.map Prod.fst).Nodup) (h : lookupKey k ofs = some u) :
    lookupKey k (restoreFiles ofs c) = some (Value.upload u) := by
  induction ofs generalizing c with
  | nil => cases h
  | cons ku rest ih =>
    obtain ⟨k0, u0⟩ := ku
    rw [List.map_cons, List.nodup_cons] at hnd
    obtain ⟨hknotin, hndrest⟩ := hnd
    by_cases hk : k0 = k
    · subst hk
      rw [lookupKey, if_pos rfl] at h
      obtain rfl : u0 = u := Option.some.inj h
      have hnone : lookupKey k0 rest = none := lookupKey_eq_none_of_not_mem _ _ hknotin
      show lookupKey k0 (restoreFiles rest (setKey c k0 (Value.upload u0))) =
        some (Value.upload u0)
      rw [restoreFiles_lookup_not_mem _ _ _ hnone, lookupKey_setKey_self]
    · rw [lookupKey, if_neg hk] at h
      show lookupKey k (restoreFiles rest (setKey c k0 (Value.upload u0))) =
        some (Value.upload u)
      exact ih _ hndrest h

/-- Claim C2: when the semantic validation call succeeds, cleaned_data
becomes the validator output with the original platform objects written
back: every upload field whose mechanical pass succeeded with a file
present ends with exactly the original platform object (never the
wrapper substituted during the semantic pass), and every non-upload
field ends with the validator output for its key. -/
theorem c2_success_restores_original_uploads
    (validator : List (String × Value) → Except (List ErrorDetails) (List (String × Value)))
    (file_names fields : List String) (st : FormState) (validated : List (String × Value))
    (hnd : ((build_pydantic_data file_names st.cleaned).2.map Prod.fst).Nodup)
    (hok : validator (build_pydantic_data file_names st.cleaned).1 = Except.ok validated) :
    clean_form validator file_names fields st = Except.ok
      { st with
        cleaned := restoreFiles (build_pydantic_data file_names st.cleaned).2 validated } ∧
    (∀ k u, file_names.contains k = true →
      lookupKey k st.cleaned = some (Value.upload u) →
      lookupKey k (restoreFiles (build_pydantic_data file_names st.cleaned).2 validated) =
        some (Value.upload u)) ∧
    (∀ k u w, file_names.contains k = true →
      lookupKey k st.cleaned = some (Value.upload u) →
      lookupKey k (restoreFiles (build_pydantic_data file_names st.cleaned).2 validated) ≠
        some (Value.wrapper w)) ∧
    (∀ k, file_names.contains k = false →
      lookupKey k (restoreFiles (build_pydantic_data file_names st.cleaned).2 validated) =
        lookupKey k validated) := by
  have hrestore : ∀ k u, file_names.contains k = true →
      lookupKey k st.cleaned = some (Value.upload u) →
      lookupKey k (restoreFiles (build_pydantic_data file_names st.cleaned).2 validated) =
        some (Value.upload u) :=
    fun k u hc hl =>
      restoreFiles_lookup_mem _ _ _ _ hnd (build_pd_originals_lookup _ _ _ _ hc hl)
  refine ⟨?_, hrestore, ?_, ?_⟩
  · simp [clean_form, hok]
  · intro k u w hc hl hwrap
    rw [hrestore k u hc hl] at hwrap
    cases hwrap
  · intro k hc
    exact restoreFiles_lookup_not_mem _ _ _ (build_pd_originals_lookup_none _ _ _ hc)

/-- A concrete platform upload object for the C2 witness. -/
def wFile : UploadedFile :=
  ⟨"a.pdf", 3, "application/pdf"⟩

/-- A concrete post-mechanical submission state for the C2 witness: one
upload field holding the platform object and one text field. -/
def wSt2 : FormState :=
  ⟨[("doc", Value.upload wFile), ("note", Value.str "hi")], [], []⟩

/-- Witness for C2: with an identity validator, the successfully
validated upload field ends with exactly the original platform object. -/
theorem c2_witness :
    lookupKey "doc" (restoreFiles (build_pydantic_data ["doc"] wSt2.cleaned).2
        (build_pydantic_data ["doc"] wSt2.cleaned).1) = some (Value.upload wFile) :=
  (c2_success_restores_original_uploads (fun pd => Except.ok pd) ["doc"] ["doc", "note"]
      wSt2 (build_pydantic_data ["doc"] wSt2.cleaned).1 (by decide) rfl).2.1
    "doc" wFile (by decide) (by decide)

end Schemaform
